import Mathlib

/-!
Shallow embedding of the kita_nextcloud_automation repository.

The development models the three source modules the claims are about:
* `transform/transform_data.py` — the family-hours aggregation
  (`create_family_hours_table`): the academic-year date filter, per-account
  hour sums, family deduplication, the fixed target-hours lookup and the
  clamped, rounded progress percentage;
* `fetch_data.py` — value decoding (`_parse_complex_value`,
  `_process_value`) and the row explode logic (`_explode_row`);
* `nc_tables_api_wrapper/upload_table.py` — payload construction
  (`_iter_row_payloads`), upload validation and the `clear_table` loop.

Python dictionaries are modelled as association lists (or, for row dicts,
as partial functions `String → Option _`), pandas `NaN` as `Option.none`,
Python exceptions as `Option`/`Except` results, float arithmetic as exact
rational arithmetic, and `np.round` as round-half-to-even.
-/

namespace KitaNC

/-! ### Dates (`datetime64[s]` values compared chronologically) -/

/-- A second-resolution timestamp, compared lexicographically by field,
which coincides with chronological order of `datetime64[s]` values. -/
structure DateTime where
  year : Int
  month : Nat
  day : Nat
  hour : Nat
  minute : Nat
  second : Nat
deriving DecidableEq, Repr

/-- Strict chronological comparison of two timestamps (the `<` used by the
pandas `query` on the `Datum` column). -/
def dtLt (a b : DateTime) : Bool :=
  if a.year ≠ b.year then decide (a.year < b.year)
  else if a.month ≠ b.month then decide (a.month < b.month)
  else if a.day ≠ b.day then decide (a.day < b.day)
  else if a.hour ≠ b.hour then decide (a.hour < b.hour)
  else if a.minute ≠ b.minute then decide (a.minute < b.minute)
  else decide (a.second < b.second)

/-- The timestamp `'{y}-09-01'` used as a bound in the academic-year query
(midnight, September 1st of year `y`). -/
def sep1 (y : Int) : DateTime := ⟨y, 9, 1, 0, 0, 0⟩

/-! ### `transform_data.py` data model -/

/-- One row of `df_hours`: the `Datum` column, the `wer?_id` account column
and the `Stunden` column. -/
structure HoursRow where
  datum : DateTime
  wer_id : String
  stunden : ℚ
deriving DecidableEq, Repr

/-- One row of `df_names` (one row per child).  `Option.none` models NaN. -/
structure NamesRow where
  nachname_mutter : String
  nachname_vater : Option String
  vorname_kind : String
  acct_mutter : Option String
  acct_vater : Option String
deriving DecidableEq, Repr

/-- A family record after `drop_duplicates(subset=["Familie"])`: the columns
the aggregation keeps per family. -/
structure FamRec where
  familie : String
  allein : Bool
  acct_mutter : Option String
  acct_vater : Option String
deriving DecidableEq, Repr

/-- The academic-year filter
`df_hours.query(f"'{y}-09-01'<Datum<'{y+1}-09-01'")`: both comparisons are
strict. -/
def filter_kita_year (kita_year : Int) (rows : List HoursRow) : List HoursRow :=
  rows.filter (fun r => dtLt (sep1 kita_year) r.datum && dtLt r.datum (sep1 (kita_year + 1)))

/-- The `Familie` column:
`np.where((NM == NV) | NV.isna(), NM, NM + " & " + NV)`.  A NaN father name
compares unequal in pandas but is caught by `isna`. -/
def mkFamilie (r : NamesRow) : String :=
  if r.nachname_vater = some r.nachname_mutter ∨ r.nachname_vater = Option.none then
    r.nachname_mutter
  else
    r.nachname_mutter ++ " & " ++ r.nachname_vater.getD ""

/-- A names row turned into its family record (`Familie` plus the
`alleinerziehend = Nachname Vater isna` flag and the two account columns). -/
def mkFamRec (r : NamesRow) : FamRec :=
  ⟨mkFamilie r, r.nachname_vater.isNone, r.acct_mutter, r.acct_vater⟩

/-- Model of `drop_duplicates(subset=["Familie"])`: keep the first row seen
for each `Familie` value; `seen` accumulates keys already kept. -/
def dedupFamilies (seen : List String) : List FamRec → List FamRec
  | [] => []
  | f :: rest =>
    if f.familie ∈ seen then dedupFamilies seen rest
    else f :: dedupFamilies (f.familie :: seen) rest

/-- The `hours_dict` built by `df_hours.groupby("wer?_id")["Stunden"].sum()`:
total hours recorded for one account (0 when the account has no rows, which
matches the later `.map(hours_dict).fillna(0)`). -/
def hours_dict (hrs : List HoursRow) (acct : String) : ℚ :=
  ((hrs.filter (fun r => r.wer_id == acct)).map (·.stunden)).sum

/-- Hours contributed by one guardian account column
(`.map(hours_dict).fillna(0)`): a NaN account, or an account absent from
the hours data, contributes 0. -/
def acctHours (hrs : List HoursRow) : Option String → ℚ
  | Option.none => 0
  | some a => hours_dict hrs a

/-- The `children_count` dictionary
(`df_names.groupby("Familie")["Vorname Kind"].count()`): one names row is
one child. -/
def children_count (names : List NamesRow) (fam : String) : Nat :=
  (names.filter (fun r => mkFamilie r == fam)).length

/-- The fixed `target_hours_dict` of `create_family_hours_table`, keyed by
`(alleinerziehend, n_children)`.  A missing key is a Python `KeyError`,
modelled as `Option.none`. -/
def target_hours_dict : Bool × Nat → Option Nat
  | (false, 1) => some 102
  | (false, 2) => some 132
  | (false, 3) => some 132
  | (true, 1) => some 50
  | (true, 2) => some 60
  | _ => Option.none

/-- Round half to even on rationals, the rounding rule of `np.round`. -/
def npRound (q : ℚ) : ℤ :=
  if q - (⌊q⌋ : ℚ) < 1/2 then ⌊q⌋
  else if 1/2 < q - (⌊q⌋ : ℚ) then ⌊q⌋ + 1
  else if Even ⌊q⌋ then ⌊q⌋ else ⌊q⌋ + 1

/-- The progress column:
`np.round(np.minimum(100, stunden_summe / target_hours * 100))` followed by
`astype(int)` (the rounded value is integral, so the cast is exact). -/
def progress_pct (total : ℚ) (target : Nat) : ℤ :=
  npRound (min 100 (total / (target : ℚ) * 100))

/-- One output row of the family hours table (before column renaming). -/
structure FamOut where
  familie : String
  stunden1 : ℚ
  stunden2 : ℚ
  stunden_summe : ℚ
  target : Nat
  progress : ℤ
deriving DecidableEq, Repr

/-- The per-family part of the aggregation chain: guardian hours, their sum,
the child count, the target-hours lookup (a `KeyError` aborts the whole
aggregation, hence `Option`) and the progress percentage. -/
def famOut (hrs : List HoursRow) (names : List NamesRow) (f : FamRec) : Option FamOut :=
  let s1 := acctHours hrs f.acct_mutter
  let s2 := acctHours hrs f.acct_vater
  match target_hours_dict (f.allein, children_count names f.familie) with
  | some t => some ⟨f.familie, s1, s2, s1 + s2, t, progress_pct (s1 + s2) t⟩
  | Option.none => Option.none

/-- Apply a fallible per-element function to a list; the first failure
(a raised `KeyError` in the source) aborts the whole computation. -/
def mapOpt (f : α → Option β) : List α → Option (List β)
  | [] => some []
  | a :: l =>
    match f a with
    | some b => (mapOpt f l).map (b :: ·)
    | Option.none => Option.none

/-- Insert into a list kept in descending `progress` order (used to model
`sort_values(by="progress", ascending=False)`). -/
def insertDesc (x : FamOut) : List FamOut → List FamOut
  | [] => [x]
  | y :: ys => if y.progress < x.progress then x :: y :: ys else y :: insertDesc x ys

/-- Sort the output rows by descending progress. -/
def sortByProgress (l : List FamOut) : List FamOut :=
  l.foldr insertDesc []

/-- The whole `create_family_hours_table`: filter the hours to the academic
year, build the deduplicated family records from the names table, compute
each family's output row (a missing target-hours key aborts with an error)
and sort by descending progress. -/
def create_family_hours_table (df_hours : List HoursRow) (df_names : List NamesRow)
    (kita_year : Int) : Option (List FamOut) :=
  let hrs := filter_kita_year kita_year df_hours
  let fams := dedupFamilies [] (df_names.map mkFamRec)
  (mapOpt (famOut hrs df_names) fams).map sortByProgress

/-! ### `fetch_data.py` data model -/

/-- A Python value as it appears in decoded table cells: `null` is Python
`None`, `dict` keeps its key/value pairs in insertion order.  (Booleans and
floats play no role in the decoded paths the claims are about.) -/
inductive PyVal where
  | null : PyVal
  | int (n : Int) : PyVal
  | str (s : String) : PyVal
  | list (xs : List PyVal) : PyVal
  | dict (kvs : List (String × PyVal)) : PyVal

/-- Python `str.strip()` with no argument: remove leading and trailing
whitespace (on the character list of the string). -/
def pyStrip (cs : List Char) : List Char :=
  ((cs.dropWhile Char.isWhitespace).reverse.dropWhile Char.isWhitespace).reverse

/-- Python `s.startswith(c)` for a one-character prefix. -/
def startsWithChar (cs : List Char) (c : Char) : Bool :=
  match cs with
  | [] => false
  | c' :: _ => c' == c

/-- Syntactic guard of `_parse_complex_value`:
`value.strip().startswith("[") or value.strip().startswith("{")`. -/
def looksLikeLiteral (s : String) : Bool :=
  startsWithChar (pyStrip s.data) '[' || startsWithChar (pyStrip s.data) '\x7b'

/-- Model of `_parse_complex_value`.  `litEval` stands for
`ast.literal_eval`; a raised (and caught) `ValueError`/`SyntaxError` is
`Option.none`.  Non-strings, strings that do not begin like a list/dict
literal, and failed parses all come back unchanged. -/
def parse_complex_value (litEval : String → Option PyVal) : PyVal → PyVal
  | PyVal.str s =>
    if looksLikeLiteral s then
      match litEval s with
      | some p => p
      | Option.none => PyVal.str s
    else PyVal.str s
  | v => v

/-- Digit-string to number; fails on an empty or non-digit string (the
`ValueError` of Python `int()`). -/
def digitsCore (cs : List Char) : Option Nat :=
  if cs.isEmpty then Option.none
  else if cs.all Char.isDigit then
    some (cs.foldl (fun a c => a * 10 + (c.toNat - 48)) 0)
  else Option.none

/-- Python `int()` applied to a string: surrounding whitespace is ignored,
an optional single sign is allowed, then decimal digits. -/
def parseIntStr (s : String) : Option Int :=
  match pyStrip s.data with
  | [] => Option.none
  | '+' :: rest => (digitsCore rest).map Int.ofNat
  | '-' :: rest => (digitsCore rest).map (fun n => -(n : Int))
  | cs => (digitsCore cs).map Int.ofNat

/-- The `isinstance(parsed_value, (int, str))` guard of `_process_value`. -/
def isIntOrStr : PyVal → Bool
  | PyVal.int _ => true
  | PyVal.str _ => true
  | _ => false

/-- Python `int(parsed_value)` for the values that pass the guard;
`Option.none` is the caught `ValueError`. -/
def pyInt : PyVal → Option Int
  | PyVal.int n => some n
  | PyVal.str s => parseIntStr s
  | _ => Option.none

/-- The select-resolution step of `_process_value` for a column whose
option map is `opts`: convert an int or string value to an option id with
`int()`; when that id is a key of the map, replace the value by the
option's label, otherwise keep it unchanged. -/
def resolveSelect (opts : List (Int × String)) (v : PyVal) : PyVal :=
  if isIntOrStr v then
    match pyInt v with
    | some n =>
      match opts.lookup n with
      | some label => PyVal.str label
      | Option.none => v
    | Option.none => v
  else v

/-- The whole `_process_value`: complex-literal parsing followed by select
resolution when the column has an option map. -/
def process_value (litEval : String → Option PyVal)
    (select_mappings : List (Int × List (Int × String))) (col_id : Int)
    (value : PyVal) : PyVal :=
  let parsed := parse_complex_value litEval value
  match select_mappings.lookup col_id with
  | some opts => resolveSelect opts parsed
  | Option.none => parsed

/-! ### Row explode (`_explode_row`) -/

/-- A row dict under construction, as a partial map from column name to
value; a name that was never assigned is `Option.none`, which pandas turns
into NaN/null when the DataFrame is built. -/
abbrev RowF := String → Option PyVal

/-- Python `row_dict[k] = v`. -/
def updateRow (r : RowF) (k : String) (v : PyVal) : RowF :=
  fun k' => if k' = k then some v else r k'

/-- The body of the inner loop of `_explode_row` for one item of one
exploding column: a dict item has each of its keys flattened to
`f"{col}_{key}"`; any other item is stored under the column name itself. -/
def applyItem (col : String) (r : RowF) : PyVal → RowF
  | PyVal.dict kvs =>
    kvs.foldl (fun acc kv => updateRow acc (col ++ "_" ++ kv.1) kv.2) r
  | v => updateRow r col v

/-- The column names that `applyItem col item` writes. -/
def itemNames (col : String) : PyVal → List String
  | PyVal.dict kvs => kvs.map (fun kv => col ++ "_" ++ kv.1)
  | _ => [col]

/-- Whether the exploding column `ci` writes `name` on output row `i`
(it does nothing there when its list is shorter than `i+1`). -/
def writesName (i : Nat) (name : String) (ci : String × List PyVal) : Bool :=
  match ci.2.get? i with
  | some item => decide (name ∈ itemNames ci.1 item)
  | Option.none => false

/-- `max(len(items) for items in explodable_columns.values())` (0 for the
empty dict, on which the source never calls `_explode_row`). -/
def max_items (expl : List (String × List PyVal)) : Nat :=
  expl.foldl (fun m ci => max m ci.2.length) 0

/-- Output row `i` of `_explode_row`: start from a copy of the base row and
let every exploding column that still has an item at index `i` write its
fields. -/
def explode_row_at (base : RowF) (expl : List (String × List PyVal)) (i : Nat) : RowF :=
  expl.foldl
    (fun r ci =>
      match ci.2.get? i with
      | some item => applyItem ci.1 r item
      | Option.none => r)
    base

/-- The whole `_explode_row`: one output row per index below the maximal
item count. -/
def explode_row (base : RowF) (expl : List (String × List PyVal)) : List RowF :=
  (List.range (max_items expl)).map (explode_row_at base expl)

/-- The per-source-row branch of `fetch_table_data` (with `explode=True`):
a row with explodable columns is exploded, any other row passes through as
itself. -/
def process_row (base : RowF) (expl : List (String × List PyVal)) : List RowF :=
  if expl.isEmpty then [base] else explode_row base expl

/-! ### `upload_table.py` data model

A DataFrame is a list of column names plus one value list per row
(`Option.none` models NaN, so `_normalize_value` is the identity here).
The remote table is its column map (title → id, from `_build_column_map`),
and the server's row-id assignment for the `k`-th POST is an abstract
function `server : Nat → Option Int` (`Option.none` models a response body
without an `"id"` field). -/

/-- Look up a column title in the title → id map. -/
def lookupCol (cm : List (String × Int)) (title : String) : Option Int :=
  cm.lookup title

/-- The payload `_iter_row_payloads` builds for one DataFrame row: columns
absent from the column map are skipped, null values are omitted, and the
key is `str(column_map[column_name])`. -/
def row_payload (cm : List (String × Int)) (cols : List String)
    (r : List (Option α)) : List (String × α) :=
  (cols.zip r).foldl
    (fun acc cv =>
      match lookupCol cm cv.1, cv.2 with
      | some cid, some v => acc ++ [(toString cid, v)]
      | _, _ => acc)
    []

/-- All payloads yielded by `_iter_row_payloads`: one per DataFrame row,
except that a row whose payload dict is empty is not yielded at all
(`if payload: yield`). -/
def iter_row_payloads (cm : List (String × Int)) (cols : List String)
    (rows : List (List (Option α))) : List (List (String × α)) :=
  (rows.map (row_payload cm cols)).filter (fun p => !p.isEmpty)

/-- The network activity of one `upload_to_table` call: how many
column-metadata GETs were issued, whether `clear_table` was invoked, and
the payload of every row-insert POST in order. -/
structure UploadTrace (α : Type) where
  column_fetches : Nat
  clear_invoked : Bool
  inserts : List (List (String × α))
deriving Repr

/-- Model of `upload_to_table`.  An empty DataFrame returns at once with no
network traffic.  Otherwise the column metadata is fetched (one GET), the
DataFrame's column names are validated against it — any unknown name
raises `ValueError` carrying the offending names, before any write —, the
table is cleared when `replace` is set, and each non-empty row payload is
POSTed; each response contributing an `"id"` is collected in call order. -/
def upload_to_table (rcols : List (String × Int)) (server : Nat → Option Int)
    (cols : List String) (rows : List (List (Option α))) (replace : Bool) :
    UploadTrace α × Except (List String) (List Int) :=
  if rows.isEmpty then (⟨0, false, []⟩, Except.ok [])
  else
    let unknown := cols.filter (fun c => (lookupCol rcols c).isNone)
    if !unknown.isEmpty then
      (⟨1, false, []⟩, Except.error unknown)
    else
      let payloads := iter_row_payloads rcols cols rows
      let ids := (List.range payloads.length).filterMap server
      (⟨1, replace, payloads⟩, Except.ok ids)

/-! ### `clear_table` -/

/-- The server-side row deletion triggered by
`DELETE .../rows/{row_id}`: the row(s) with that id disappear from the
table. -/
def deleteId (s : List (Option Int)) (id : Int) : List (Option Int) :=
  s.filter (fun r => !(r == some id))

/-- The inner `for row in rows` loop of `clear_table` over one fetched
page: a row with a null id is skipped, any other row is deleted and
counted. -/
def processPage (sc : List (Option Int) × Nat) (page : List (Option Int)) :
    List (Option Int) × Nat :=
  page.foldl
    (fun sc r =>
      match r with
      | some id => (deleteId sc.1 id, sc.2 + 1)
      | Option.none => sc)
    sc

/-- The `while True` loop of `clear_table`, with explicit fuel: every
iteration re-fetches a page of at most `b` rows from offset 0 of the
current table state `s`, stops returning the delete count when the page is
empty, and otherwise processes the page and loops.  `Option.none` means the
fuel ran out, i.e. the loop performed that many iterations without
terminating. -/
def clear_table_loop (b : Nat) : Nat → List (Option Int) → Nat → Option Nat
  | 0, _, _ => Option.none
  | fuel + 1, s, deleted =>
    let page := s.take b
    if page.isEmpty then some deleted
    else
      let sc := processPage (s, deleted) page
      clear_table_loop b fuel sc.1 sc.2

/-! ### Concrete fixtures used by the witnesses -/

/-- Names table with one single-parent family ("Meier") and three children:
the combination `(true, 3)` is missing from the target-hours table. -/
def exNames3 : List NamesRow :=
  [⟨"Meier", Option.none, "Anna", some "m.meier", Option.none⟩,
   ⟨"Meier", Option.none, "Ben", some "m.meier", Option.none⟩,
   ⟨"Meier", Option.none, "Cara", some "m.meier", Option.none⟩]

/-- Hours rows belonging only to the account "e.schmidt". -/
def exHrs : List HoursRow :=
  [⟨⟨2024, 10, 5, 12, 0, 0⟩, "e.schmidt", 5⟩, ⟨⟨2025, 1, 2, 9, 30, 0⟩, "e.schmidt", 7/2⟩]

/-- The exploded-row example: base row with one scalar column, plus one
exploding column of length 3 and one of length 1. -/
def exBase : RowF :=
  fun k => if k = "Name" then some (PyVal.str "Row1") else Option.none

def exExpl : List (String × List PyVal) :=
  [("A", [PyVal.dict [("x", PyVal.int 1)], PyVal.dict [("x", PyVal.int 2)],
          PyVal.dict [("x", PyVal.int 3)]]),
   ("B", [PyVal.dict [("y", PyVal.int 9)]])]

/-! ### Helper lemmas -/

theorem dtLt_irrefl (d : DateTime) : dtLt d d = false := by
  simp [dtLt]

theorem npRound_intCast (n : ℤ) : npRound (n : ℚ) = n := by
  simp [npRound]

theorem floor_le_npRound (q : ℚ) : ⌊q⌋ ≤ npRound q := by
  unfold npRound
  split_ifs <;> omega

theorem npRound_nonneg {q : ℚ} (h : 0 ≤ q) : 0 ≤ npRound q :=
  le_trans (Int.floor_nonneg.mpr h) (floor_le_npRound q)

theorem npRound_le_hundred {q : ℚ} (h : q ≤ 100) : npRound q ≤ 100 := by
  have h100 : ⌊(100 : ℚ)⌋ = 100 := by norm_num
  have hfloor : ⌊q⌋ ≤ 100 := by
    have := Int.floor_mono h
    omega
  unfold npRound
  split_ifs with h1 h2 h3
  · exact hfloor
  · have hhalf : (1 : ℚ) / 2 ≤ q - (⌊q⌋ : ℚ) := le_of_not_lt h1
    have : (⌊q⌋ : ℚ) < 100 := by linarith
    have : ⌊q⌋ < 100 := by exact_mod_cast this
    omega
  · exact hfloor
  · have hhalf : (1 : ℚ) / 2 ≤ q - (⌊q⌋ : ℚ) := le_of_not_lt h1
    have : (⌊q⌋ : ℚ) < 100 := by linarith
    have : ⌊q⌋ < 100 := by exact_mod_cast this
    omega

theorem hundred_le_npRound {q : ℚ} (h : 100 ≤ q) : 100 ≤ npRound q := by
  have : ⌊(100 : ℚ)⌋ ≤ ⌊q⌋ := Int.floor_mono h
  have h100 : ⌊(100 : ℚ)⌋ = 100 := by norm_num
  have := floor_le_npRound q
  omega

/-! ### C1: the academic-year filter keeps exactly the strictly-inside rows -/

/-- C1: for every hours table and every `kita_year`, the academic-year
filter keeps exactly the rows whose `Datum` is strictly between
Sep 1 of `kita_year` and Sep 1 of `kita_year + 1`; in particular a row
dated exactly Sep 1 00:00:00 of `kita_year` is excluded. -/
theorem kita_year_filter_window (kita_year : Int) (rows : List HoursRow) (r : HoursRow) :
    (r ∈ filter_kita_year kita_year rows ↔
      r ∈ rows ∧ dtLt (sep1 kita_year) r.datum = true ∧
        dtLt r.datum (sep1 (kita_year + 1)) = true)
    ∧ (r.datum = sep1 kita_year → r ∉ filter_kita_year kita_year rows) := by
  have hmem : r ∈ filter_kita_year kita_year rows ↔
      r ∈ rows ∧ dtLt (sep1 kita_year) r.datum = true ∧
        dtLt r.datum (sep1 (kita_year + 1)) = true := by
    simp [filter_kita_year, List.mem_filter]
  refine ⟨hmem, ?_⟩
  intro hd hin
  have h := (hmem.mp hin).2.1
  rw [hd, dtLt_irrefl] at h
  exact Bool.false_ne_true h

theorem kita_year_filter_window_witness :
    (⟨sep1 2024, "m.meier", 2⟩ : HoursRow) ∉
      filter_kita_year 2024
        [⟨sep1 2024, "m.meier", 2⟩, ⟨⟨2024, 10, 2, 0, 0, 0⟩, "m.meier", 3⟩] :=
  (kita_year_filter_window 2024 _ _).2 rfl

/-! ### C2: the progress percentage -/

/-- C2: for total hours ≥ 0 and a positive target, the progress percentage
of the aggregation equals the rounded ratio clamped to at most 100, is
never negative, is exactly the value placed into every aggregation output
row, and `total = 500, target = 100` yields 100. -/
theorem progress_percent_clamp (total : ℚ) (target : Nat)
    (h0 : 0 ≤ total) (ht : 0 < target) :
    progress_pct total target = min 100 (npRound (total / (target : ℚ) * 100))
    ∧ 0 ≤ progress_pct total target
    ∧ (∀ hrs names f o, famOut hrs names f = some o →
        o.progress = progress_pct o.stunden_summe o.target)
    ∧ progress_pct 500 100 = 100 := by
  have htq : (0 : ℚ) < (target : ℚ) := by exact_mod_cast ht
  set x : ℚ := total / (target : ℚ) * 100 with hxdef
  have hx0 : 0 ≤ x := mul_nonneg (div_nonneg h0 htq.le) (by norm_num)
  refine ⟨?_, ?_, ?_, ?_⟩
  · show npRound (min 100 x) = min 100 (npRound x)
    rcases le_or_lt x 100 with hle | hgt
    · rw [min_eq_right hle, min_eq_right (npRound_le_hundred hle)]
    · rw [min_eq_left hgt.le, min_eq_left (hundred_le_npRound hgt.le)]
      have : ((100 : ℤ) : ℚ) = (100 : ℚ) := by norm_num
      rw [← this, npRound_intCast]
  · show 0 ≤ npRound (min 100 x)
    exact npRound_nonneg (le_min (by norm_num) hx0)
  · intro hrs names f o h
    unfold famOut at h
    rcases htg : target_hours_dict (f.allein, children_count names f.familie) with _ | t <;>
      rw [htg] at h
    · exact absurd h (by simp)
    · rw [Option.some_inj] at h
      subst h
      rfl
  · show npRound (min 100 ((500 : ℚ) / ((100 : Nat) : ℚ) * 100)) = 100
    have hx : ((500 : ℚ) / ((100 : Nat) : ℚ) * 100) = 500 := by norm_num
    have hmin : min (100 : ℚ) 500 = 100 := by norm_num
    have hcast : ((100 : ℤ) : ℚ) = (100 : ℚ) := by norm_num
    rw [hx, hmin, ← hcast, npRound_intCast]

theorem progress_percent_clamp_witness : progress_pct 500 100 = 100 :=
  (progress_percent_clamp 500 100 (by norm_num) (by norm_num)).2.2.2

/-! ### C3: the fixed target-hours table and its hard error -/

theorem mapOpt_eq_none {f : α → Option β} {l : List α} {a : α}
    (ha : a ∈ l) (hf : f a = Option.none) : mapOpt f l = Option.none := by
  induction l with
  | nil => cases ha
  | cons b t ih =>
    rcases List.mem_cons.mp ha with h | h
    · subst h
      simp [mapOpt, hf]
    · unfold mapOpt
      cases hb : f b
      · rfl
      · rw [ih h]
        rfl

theorem famOut_eq_none {hrs : List HoursRow} {names : List NamesRow} {f : FamRec}
    (h : target_hours_dict (f.allein, children_count names f.familie) = Option.none) :
    famOut hrs names f = Option.none := by
  unfold famOut
  rw [h]

/-- C3: the target-hours lookup is exactly the fixed five-entry table —
every other `(is_single_parent, child_count)` combination is absent — and
an aggregated family whose combination is absent makes the whole
aggregation fail with an error instead of falling back to a default, while
a family that does aggregate carries exactly the looked-up target. -/
theorem target_hours_lookup (hrs : List HoursRow) (names : List NamesRow)
    (kita_year : Int) (f : FamRec) :
    (target_hours_dict (false, 1) = some 102 ∧ target_hours_dict (false, 2) = some 132 ∧
      target_hours_dict (false, 3) = some 132 ∧ target_hours_dict (true, 1) = some 50 ∧
      target_hours_dict (true, 2) = some 60 ∧ target_hours_dict (true, 3) = Option.none)
    ∧ (∀ b n, (b, n) ∉ [(false, 1), (false, 2), (false, 3), (true, 1), (true, 2)] →
        target_hours_dict (b, n) = Option.none)
    ∧ (∀ o, famOut hrs names f = some o →
        target_hours_dict (f.allein, children_count names f.familie) = some o.target)
    ∧ (f ∈ dedupFamilies [] (names.map mkFamRec) →
        target_hours_dict (f.allein, children_count names f.familie) = Option.none →
        create_family_hours_table hrs names kita_year = Option.none) := by
  refine ⟨by decide, ?_, ?_, ?_⟩
  · intro b n h
    cases b <;> rcases n with _ | _ | _ | _ | n <;> simp_all <;> rfl
  · intro o h
    unfold famOut at h
    rcases htg : target_hours_dict (f.allein, children_count names f.familie) with _ | t <;>
      rw [htg] at h
    · exact absurd h (by simp)
    · rw [Option.some_inj] at h
      subst h
      rfl
  · intro hf hnone
    have hfn : famOut (filter_kita_year kita_year hrs) names f = Option.none :=
      famOut_eq_none hnone
    have h := mapOpt_eq_none hf hfn
    simp only [create_family_hours_table, h, Option.map_none']

theorem target_hours_lookup_witness :
    create_family_hours_table [] exNames3 2024 = Option.none :=
  (target_hours_lookup [] exNames3 2024
      ⟨"Meier", true, some "m.meier", Option.none⟩).2.2.2 (by decide) (by decide)

/-! ### C4: guardians with no hours contribute zero -/

theorem acctHours_eq_zero {hrs : List HoursRow} {a : Option String}
    (h : ∀ r ∈ hrs, a ≠ some r.wer_id) : acctHours hrs a = 0 := by
  cases a with
  | none => rfl
  | some s =>
    show ((hrs.filter (fun r => r.wer_id == s)).map (·.stunden)).sum = 0
    have hfil : hrs.filter (fun r => r.wer_id == s) = [] := by
      rw [List.filter_eq_nil_iff]
      intro r hr
      simp only [beq_iff_eq]
      intro he
      exact h r hr (by rw [he])
    rw [hfil]
    rfl

/-- C4: a guardian account with no matching hours entries contributes
exactly 0 to the family totals; every aggregated family's total is the sum
of its two guardians' totals; and when one guardian has no matching hours
entries the family total equals the other guardian's total exactly. -/
theorem guardian_hours_sum (hrs : List HoursRow) (names : List NamesRow) (f : FamRec) :
    ((∀ r ∈ hrs, f.acct_mutter ≠ some r.wer_id) → acctHours hrs f.acct_mutter = 0)
    ∧ (∀ o, famOut hrs names f = some o →
        o.stunden_summe = o.stunden1 + o.stunden2
        ∧ o.stunden1 = acctHours hrs f.acct_mutter
        ∧ o.stunden2 = acctHours hrs f.acct_vater)
    ∧ (∀ o, famOut hrs names f = some o →
        (∀ r ∈ hrs, f.acct_mutter ≠ some r.wer_id) → o.stunden_summe = o.stunden2)
    ∧ (∀ o, famOut hrs names f = some o →
        (∀ r ∈ hrs, f.acct_vater ≠ some r.wer_id) → o.stunden_summe = o.stunden1) := by
  have hout : ∀ o, famOut hrs names f = some o →
      o.stunden_summe = o.stunden1 + o.stunden2
      ∧ o.stunden1 = acctHours hrs f.acct_mutter
      ∧ o.stunden2 = acctHours hrs f.acct_vater := by
    intro o h
    unfold famOut at h
    rcases htg : target_hours_dict (f.allein, children_count names f.familie) with _ | t <;>
      rw [htg] at h
    · exact absurd h (by simp)
    · rw [Option.some_inj] at h
      subst h
      exact ⟨rfl, rfl, rfl⟩
  refine ⟨fun h => acctHours_eq_zero h, hout, ?_, ?_⟩
  · intro o ho hm
    obtain ⟨hsum, h1, h2⟩ := hout o ho
    rw [hsum, h1, acctHours_eq_zero hm, zero_add]
  · intro o ho hv
    obtain ⟨hsum, h1, h2⟩ := hout o ho
    rw [hsum, h2, acctHours_eq_zero hv, add_zero]

theorem guardian_hours_sum_witness :
    acctHours exHrs (some "m.meier") = 0 :=
  (guardian_hours_sum exHrs [] ⟨"Meier", false, some "m.meier", some "e.schmidt"⟩).1
    (by decide)

/-! ### C5: the shape of `_explode_row` -/

theorem foldl_update_apply (kvs : List (String × PyVal)) (col : String) (r : RowF)
    (name : String) (h : ∀ kv ∈ kvs, name ≠ col ++ "_" ++ kv.1) :
    (kvs.foldl (fun acc kv => updateRow acc (col ++ "_" ++ kv.1) kv.2) r) name = r name := by
  induction kvs generalizing r with
  | nil => rfl
  | cons kv t ih =>
    simp only [List.foldl_cons]
    rw [ih _ (fun kv' h' => h kv' (List.mem_cons_of_mem _ h'))]
    simp [updateRow, h kv (List.mem_cons_self _ _)]

theorem applyItem_apply (col : String) (r : RowF) (item : PyVal) (name : String)
    (h : name ∉ itemNames col item) : applyItem col r item name = r name := by
  cases item with
  | dict kvs =>
    refine foldl_update_apply kvs col r name (fun kv hkv he => ?_)
    exact h (by rw [itemNames]; exact List.mem_map.mpr ⟨kv, hkv, he.symm⟩)
  | null => exact if_neg (fun he => h (List.mem_singleton.mpr he))
  | int n => exact if_neg (fun he => h (List.mem_singleton.mpr he))
  | str s => exact if_neg (fun he => h (List.mem_singleton.mpr he))
  | list xs => exact if_neg (fun he => h (List.mem_singleton.mpr he))

theorem explode_row_at_apply (base : RowF) (expl : List (String × List PyVal)) (i : Nat)
    (name : String) (h : ∀ ci ∈ expl, writesName i name ci = false) :
    explode_row_at base expl i name = base name := by
  induction expl generalizing base with
  | nil => rfl
  | cons ci t ih =>
    have hstep :
        (match ci.2.get? i with
          | some item => applyItem ci.1 base item
          | Option.none => base) name = base name := by
      have hci := h ci (List.mem_cons_self _ _)
      rcases hg : ci.2.get? i with _ | item
      · rfl
      · rw [writesName, hg] at hci
        exact applyItem_apply ci.1 base item name (of_decide_eq_false hci)
    calc explode_row_at base (ci :: t) i name
        = explode_row_at
            (match ci.2.get? i with
              | some item => applyItem ci.1 base item
              | Option.none => base) t i name := rfl
      _ = base name := by
          rw [ih _ (fun ci' h' => h ci' (List.mem_cons_of_mem _ h'))]
          exact hstep

/-- C5: with `explode=true` a source row with explodable columns yields as
many output rows as the longest exploding column has items, a row with no
explodable columns passes through as exactly one unchanged row, any column
name no exploding column writes on output row `i` keeps its base-row value
(scalar columns are broadcast), and in particular the flattened fields of
an exploding column that is shorter than `i + 1` — when no other column
writes the same name — are null on output row `i`. -/
theorem explode_row_shape (base : RowF) (expl : List (String × List PyVal)) :
    (process_row base expl).length = (if expl.isEmpty then 1 else max_items expl)
    ∧ (expl = [] → process_row base expl = [base])
    ∧ (∀ i name, (∀ ci ∈ expl, writesName i name ci = false) →
        explode_row_at base expl i name = base name)
    ∧ (∀ i c items k, (c, items) ∈ expl → items.length ≤ i →
        base (c ++ "_" ++ k) = Option.none →
        (∀ ci ∈ expl, writesName i (c ++ "_" ++ k) ci = false) →
        explode_row_at base expl i (c ++ "_" ++ k) = Option.none) := by
  refine ⟨?_, ?_, ?_, ?_⟩
  · by_cases h : expl.isEmpty <;> simp [process_row, h, explode_row]
  · intro h
    subst h
    rfl
  · exact fun i name h => explode_row_at_apply base expl i name h
  · intro i c items k _ _ hbase h
    rw [explode_row_at_apply base expl i _ h, hbase]

theorem explode_row_shape_witness :
    (process_row exBase exExpl).length = 3
    ∧ explode_row_at exBase exExpl 1 ("B" ++ "_" ++ "y") = Option.none
    ∧ explode_row_at exBase exExpl 2 "Name" = some (PyVal.str "Row1") :=
  ⟨((explode_row_shape exBase exExpl).1).trans (by decide),
   (explode_row_shape exBase exExpl).2.2.2 1 "B" [PyVal.dict [("y", PyVal.int 9)]] "y"
     (List.mem_cons_of_mem _ (List.mem_cons_self _ _)) (by decide) rfl (by decide),
   ((explode_row_shape exBase exExpl).2.2.1 2 "Name" (by decide)).trans rfl⟩

/-! ### C6: select-value resolution

Resolution of a known id to its label and stability of unknown ids hold,
but resolution is NOT idempotent in general: a label that is itself the
decimal representation of a mapped option id is looked up again on a
second application. -/

/-- C6 counterexample: with the option map `{5 ↦ "7", 7 ↦ "x"}` the value
`5` resolves to the label `"7"`, and applying the resolution step a second
time changes that label to `"x"` — labels are not terminal. -/
theorem select_resolution_not_idempotent :
    resolveSelect [(5, "7"), (7, "x")] (resolveSelect [(5, "7"), (7, "x")] (PyVal.int 5)) ≠
      resolveSelect [(5, "7"), (7, "x")] (PyVal.int 5) := by
  have h1 : resolveSelect [(5, "7"), (7, "x")] (PyVal.int 5) = PyVal.str "7" := rfl
  have h2 : resolveSelect [(5, "7"), (7, "x")] (PyVal.str "7") = PyVal.str "x" := rfl
  rw [h1, h2]
  intro h
  injection h with h'
  exact absurd h' (by decide)

/-- C6 amended: an integer or stringified-integer value whose id is in the
option map resolves to that option's label; a value whose id is unknown to
the map, or which does not convert to an integer at all, is kept
unchanged; and resolving a second time leaves the resolved label unchanged
PROVIDED the label does not itself convert to an integer that is a key of
the option map (a label that is the decimal string of a mapped id is
re-resolved). -/
theorem select_resolution_amended (opts : List (Int × String)) (v : PyVal) :
    (∀ n label, pyInt v = some n → isIntOrStr v = true → opts.lookup n = some label →
      resolveSelect opts v = PyVal.str label)
    ∧ (∀ n, pyInt v = some n → opts.lookup n = Option.none → resolveSelect opts v = v)
    ∧ (pyInt v = Option.none → resolveSelect opts v = v)
    ∧ (∀ label, resolveSelect opts v = PyVal.str label →
        (∀ n, parseIntStr label = some n → opts.lookup n = Option.none) →
        resolveSelect opts (PyVal.str label) = PyVal.str label) := by
  refine ⟨?_, ?_, ?_, ?_⟩
  · intro n label hn hv hl
    rw [resolveSelect, if_pos hv, hn]
    show (match opts.lookup n with
      | some label => PyVal.str label
      | Option.none => v) = PyVal.str label
    rw [hl]
  · intro n hn hl
    by_cases hv : isIntOrStr v = true
    · rw [resolveSelect, if_pos hv, hn]
      show (match opts.lookup n with
        | some label => PyVal.str label
        | Option.none => v) = v
      rw [hl]
    · rw [resolveSelect, if_neg hv]
  · intro hn
    by_cases hv : isIntOrStr v = true
    · rw [resolveSelect, if_pos hv, hn]
    · rw [resolveSelect, if_neg hv]
  · intro label _ hterm
    have hstr : isIntOrStr (PyVal.str label) = true := rfl
    rw [resolveSelect, if_pos hstr]
    show (match pyInt (PyVal.str label) with
      | some n =>
        match opts.lookup n with
        | some l => PyVal.str l
        | Option.none => PyVal.str label
      | Option.none => PyVal.str label) = PyVal.str label
    rcases hp : pyInt (PyVal.str label) with _ | n
    · rfl
    · show (match opts.lookup n with
        | some l => PyVal.str l
        | Option.none => PyVal.str label) = PyVal.str label
      rw [hterm n hp]

theorem select_resolution_amended_witness :
    resolveSelect [((5 : Int), "seven")] (PyVal.int 5) = PyVal.str "seven" :=
  (select_resolution_amended [((5 : Int), "seven")] (PyVal.int 5)).1 5 "seven" rfl rfl rfl

/-! ### C7: totality of the string-encoded-literal parser -/

/-- C7: `_parse_complex_value` is a total function: it attempts a parse
only when the stripped string begins with a bracket or brace, a failed
parse (the caught `ValueError`/`SyntaxError` of `ast.literal_eval`,
modelled by `litEval` returning `Option.none`) returns the original value
unchanged, and every input comes back either unchanged or as the
successfully parsed structured value — the function never raises. -/
theorem parse_complex_value_total (litEval : String → Option PyVal) (v : PyVal) :
    (∀ s, v = PyVal.str s → looksLikeLiteral s = false →
      parse_complex_value litEval v = v)
    ∧ (∀ s, v = PyVal.str s → litEval s = Option.none →
      parse_complex_value litEval v = v)
    ∧ (parse_complex_value litEval v = v ∨
       ∃ s p, v = PyVal.str s ∧ looksLikeLiteral s = true ∧ litEval s = some p ∧
         parse_complex_value litEval v = p) := by
  refine ⟨?_, ?_, ?_⟩
  · intro s hv hguard
    subst hv
    rw [parse_complex_value, if_neg (by rw [hguard]; exact Bool.false_ne_true)]
  · intro s hv hfail
    subst hv
    by_cases hguard : looksLikeLiteral s = true
    · rw [parse_complex_value, if_pos hguard, hfail]
    · rw [parse_complex_value, if_neg hguard]
  · cases v with
    | str s =>
      by_cases hguard : looksLikeLiteral s = true
      · rcases hp : litEval s with _ | p
        · left
          rw [parse_complex_value, if_pos hguard, hp]
        · right
          exact ⟨s, p, rfl, hguard, hp, by rw [parse_complex_value, if_pos hguard, hp]⟩
      · left
        rw [parse_complex_value, if_neg hguard]
    | null => exact Or.inl rfl
    | int n => exact Or.inl rfl
    | list xs => exact Or.inl rfl
    | dict kvs => exact Or.inl rfl

theorem parse_complex_value_total_witness :
    parse_complex_value (fun _ => Option.none) (PyVal.str "[1, 2") = PyVal.str "[1, 2" :=
  (parse_complex_value_total (fun _ => Option.none) (PyVal.str "[1, 2")).2.1 "[1, 2" rfl rfl

/-! ### C8: upload validation

The validation itself and the absence of any write-transport call hold,
but the claim's "before any network call is made" is false: the column
metadata is fetched over the network (one GET) before the DataFrame's
column names can be validated at all. -/

/-- C8 counterexample: a one-row DataFrame with the unknown column "B"
is rejected with a validation error, yet the network-call trace is not
empty — the column-metadata GET was issued before the rejection, so
"rejects before any network call is made" fails. -/
theorem upload_validation_counterexample :
    (upload_to_table [("A", (1 : Int))] (fun k => some ((100 : Int) + k)) ["A", "B"]
        [[some (3 : Int), some 4]] true).2 = Except.error ["B"]
    ∧ (upload_to_table [("A", (1 : Int))] (fun k => some ((100 : Int) + k)) ["A", "B"]
        [[some (3 : Int), some 4]] true).1.column_fetches ≠ 0 :=
  ⟨rfl, by decide⟩

/-- C8 amended: a non-empty DataFrame with a column name that has no
matching remote column title makes `upload_to_table` raise a validation
error after the single column-metadata read but before any write-transport
call: no clear is performed and no row-insert is issued. -/
theorem upload_validation_rejects_before_write {α : Type}
    (rcols : List (String × Int)) (server : Nat → Option Int)
    (cols : List String) (rows : List (List (Option α))) (replace : Bool)
    (hne : rows ≠ []) (c : String) (hc : c ∈ cols)
    (hunk : lookupCol rcols c = Option.none) :
    (∃ unknown, unknown ≠ [] ∧
      (upload_to_table rcols server cols rows replace).2 = Except.error unknown)
    ∧ (upload_to_table rcols server cols rows replace).1.clear_invoked = false
    ∧ (upload_to_table rcols server cols rows replace).1.inserts = []
    ∧ (upload_to_table rcols server cols rows replace).1.column_fetches = 1 := by
  have hrows : rows.isEmpty = false := by
    rcases rows with _ | ⟨r, rs⟩
    · exact absurd rfl hne
    · rfl
  have hcmem : c ∈ cols.filter (fun c => (lookupCol rcols c).isNone) :=
    List.mem_filter.mpr ⟨hc, by rw [hunk]; rfl⟩
  have hfil : (cols.filter (fun c => (lookupCol rcols c).isNone)).isEmpty = false := by
    rcases hf : cols.filter (fun c => (lookupCol rcols c).isNone) with _ | ⟨x, xs⟩
    · rw [hf] at hcmem
      cases hcmem
    · rfl
  have hstep : upload_to_table rcols server cols rows replace =
      (⟨1, false, []⟩, Except.error (cols.filter (fun c => (lookupCol rcols c).isNone))) := by
    rw [upload_to_table, hrows]
    simp only [Bool.false_eq_true, if_false, hfil, Bool.not_false, if_pos]
  rw [hstep]
  refine ⟨⟨cols.filter (fun c => (lookupCol rcols c).isNone), ?_, rfl⟩, rfl, rfl, rfl⟩
  intro h
  rw [h] at hcmem
  cases hcmem

theorem upload_validation_rejects_before_write_witness :
    (∃ unknown, unknown ≠ [] ∧
      (upload_to_table [("A", (1 : Int))] (fun _ => (Option.none : Option Int)) ["A", "B"]
          [[some (3 : Int), some 4]] true).2 = Except.error unknown)
    ∧ (upload_to_table [("A", (1 : Int))] (fun _ => (Option.none : Option Int)) ["A", "B"]
        [[some (3 : Int), some 4]] true).1.clear_invoked = false
    ∧ (upload_to_table [("A", (1 : Int))] (fun _ => (Option.none : Option Int)) ["A", "B"]
        [[some (3 : Int), some 4]] true).1.inserts = []
    ∧ (upload_to_table [("A", (1 : Int))] (fun _ => (Option.none : Option Int)) ["A", "B"]
        [[some (3 : Int), some 4]] true).1.column_fetches = 1 :=
  upload_validation_rejects_before_write [("A", (1 : Int))] (fun _ => Option.none)
    ["A", "B"] [[some (3 : Int), some 4]] true (by decide) "B" (by decide) rfl

/-! ### C9: one insert call per row

`_iter_row_payloads` silently skips a row whose payload dict is empty
(`if payload: yield`), so a validated upload does NOT issue one insert per
input row in general: a row all of whose values are null produces no
network call and no id.  The per-row correspondence holds exactly for the
rows with a non-empty payload. -/

/-- C9 counterexample: a validated single-row upload whose only value is
null issues zero row-insert calls and returns an empty id list — not one
call and one id per input row. -/
theorem upload_row_calls_counterexample :
    (upload_to_table [("A", (1 : Int))] (fun k => some ((100 : Int) + k)) ["A"]
        [[(Option.none : Option Int)]] false).1.inserts.length ≠
      ([[(Option.none : Option Int)]] : List (List (Option Int))).length
    ∧ (upload_to_table [("A", (1 : Int))] (fun k => some ((100 : Int) + k)) ["A"]
        [[(Option.none : Option Int)]] false).2 = Except.ok [] := by
  exact ⟨by decide, rfl⟩

/-- C9 amended: for a validated upload, the row-insert calls are exactly
the non-empty per-row payloads in input-row order (a row whose payload is
empty is skipped without a network call); when every row has a non-empty
payload there is exactly one insert call per input row; and the returned
ids are the server-assigned ids of those calls in call order. -/
theorem upload_row_calls_amended {α : Type}
    (rcols : List (String × Int)) (server : Nat → Option Int)
    (cols : List String) (rows : List (List (Option α))) (replace : Bool)
    (hne : rows ≠ []) (hval : ∀ c ∈ cols, (lookupCol rcols c).isSome = true) :
    (upload_to_table rcols server cols rows replace).1.inserts =
      iter_row_payloads rcols cols rows
    ∧ (upload_to_table rcols server cols rows replace).2 =
      Except.ok ((List.range (iter_row_payloads rcols cols rows).length).filterMap server)
    ∧ ((∀ r ∈ rows, row_payload rcols cols r ≠ []) →
        (upload_to_table rcols server cols rows replace).1.inserts.length = rows.length)
    ∧ (∀ g : Nat → Int, (∀ k, server k = some (g k)) →
        (upload_to_table rcols server cols rows replace).2 =
          Except.ok ((List.range (iter_row_payloads rcols cols rows).length).map g)) := by
  have hrows : rows.isEmpty = false := by
    rcases rows with _ | ⟨r, rs⟩
    · exact absurd rfl hne
    · rfl
  have hfil : (cols.filter (fun c => (lookupCol rcols c).isNone)).isEmpty = true := by
    rw [List.isEmpty_iff, List.filter_eq_nil_iff]
    intro c hc
    rw [Option.isNone_iff_eq_none]
    intro hn
    have hs := hval c hc
    rw [hn] at hs
    exact Bool.false_ne_true hs
  have hstep : upload_to_table rcols server cols rows replace =
      (⟨1, replace, iter_row_payloads rcols cols rows⟩,
        Except.ok ((List.range (iter_row_payloads rcols cols rows).length).filterMap server)) := by
    rw [upload_to_table, hrows]
    simp only [Bool.false_eq_true, if_false, hfil, Bool.not_true, if_neg]
  refine ⟨by rw [hstep], by rw [hstep], ?_, ?_⟩
  · intro hall
    rw [hstep]
    show (iter_row_payloads rcols cols rows).length = rows.length
    have : (rows.map (row_payload rcols cols)).filter (fun p => !p.isEmpty) =
        rows.map (row_payload rcols cols) := by
      rw [List.filter_eq_self]
      intro p hp
      rcases List.mem_map.mp hp with ⟨r, hr, hpr⟩
      have hne' : p ≠ [] := by
        rw [← hpr]
        exact hall r hr
      simp [List.isEmpty_iff, hne']
    rw [iter_row_payloads, this, List.length_map]
  · intro g hg
    rw [hstep]
    have hsg : server = fun k => some (g k) := funext hg
    rw [hsg]
    show Except.ok (List.filterMap (some ∘ g) (List.range (iter_row_payloads rcols cols rows).length)) =
      Except.ok (List.map g (List.range (iter_row_payloads rcols cols rows).length))
    rw [List.filterMap_eq_map]

theorem upload_row_calls_amended_witness :
    (upload_to_table [("A", (1 : Int))] (fun k => some ((100 : Int) + k)) ["A"]
        [[some (3 : Int)], [some (7 : Int)]] false).1.inserts.length = 2
    ∧ (upload_to_table [("A", (1 : Int))] (fun k => some ((100 : Int) + k)) ["A"]
        [[some (3 : Int)], [some (7 : Int)]] false).2 =
      Except.ok ((List.range
        (iter_row_payloads [("A", (1 : Int))] ["A"]
          ([[some (3 : Int)], [some (7 : Int)]] : List (List (Option Int)))).length).map
        (fun k => (100 : Int) + k)) :=
  ⟨(upload_row_calls_amended [("A", (1 : Int))] (fun k => some ((100 : Int) + k)) ["A"]
      [[some (3 : Int)], [some (7 : Int)]] false (by decide) (by decide)).2.2.1 (by decide),
   (upload_row_calls_amended [("A", (1 : Int))] (fun k => some ((100 : Int) + k)) ["A"]
      [[some (3 : Int)], [some (7 : Int)]] false (by decide) (by decide)).2.2.2
     (fun k => (100 : Int) + k) (fun _ => rfl)⟩

/-! ### C10: termination behaviour of `clear_table` -/

theorem processPage_all_none (s : List (Option Int)) (c : Nat)
    (page : List (Option Int)) (h : ∀ r ∈ page, r = Option.none) :
    processPage (s, c) page = (s, c) := by
  induction page with
  | nil => rfl
  | cons r t ih =>
    have hr := h r (List.mem_cons_self _ _)
    subst hr
    exact ih (fun r' h' => h r' (List.mem_cons_of_mem _ h'))

theorem processPage_prefix :
    ∀ (p rest : List (Option Int)) (c : Nat),
      (∀ r ∈ p, r.isSome = true) → (p ++ rest).Nodup →
      processPage (p ++ rest, c) p = (rest, c + p.length) := by
  intro p
  induction p with
  | nil => intro rest c _ _; rfl
  | cons r t ih =>
    intro rest c hsome hnd
    rcases hr : r with _ | id
    · rw [hr] at hsome
      have := hsome Option.none (List.mem_cons_self _ _)
      cases this
    · rw [hr] at hnd
      have hnotin : some id ∉ t ++ rest := (List.nodup_cons.mp hnd).1
      have hdel : deleteId ((some id :: t) ++ rest) id = t ++ rest := by
        show ((some id :: (t ++ rest)).filter (fun r => !(r == some id))) = t ++ rest
        rw [List.filter_cons]
        have : ((some id : Option Int) == some id) = true := by simp
        rw [this]
        simp only [Bool.not_true, Bool.false_eq_true, if_false]
        rw [List.filter_eq_self]
        intro a ha
        rw [Bool.not_eq_true', beq_eq_false_iff_ne]
        intro he
        rw [he] at ha
        exact hnotin ha
      have hstep : processPage ((some id :: t) ++ rest, c) (some id :: t) =
          processPage (t ++ rest, c + 1) t := by
        show processPage (deleteId ((some id :: t) ++ rest) id, c + 1) t =
          processPage (t ++ rest, c + 1) t
        rw [hdel]
      rw [hstep,
        ih rest (c + 1) (fun r' h' => hsome r' (List.mem_cons_of_mem _ h'))
          (List.nodup_cons.mp hnd).2]
      have : c + 1 + t.length = c + (t.length + 1) := by omega
      rw [this]
      rfl

theorem clear_loop_diverges (b : Nat) (hb : 0 < b) (s : List (Option Int))
    (hall : ∀ r ∈ s, r = Option.none) (hne : s ≠ []) :
    ∀ fuel c, clear_table_loop b fuel s c = Option.none := by
  intro fuel
  induction fuel with
  | zero => intro c; rfl
  | succ n ih =>
    intro c
    have hpage : (s.take b).isEmpty = false := by
      rcases s with _ | ⟨x, t⟩
      · exact absurd rfl hne
      · rcases b with _ | b'
        · omega
        · rfl
    have hpp : processPage (s, c) (s.take b) = (s, c) :=
      processPage_all_none s c (s.take b)
        (fun r hr => hall r (List.take_subset b s hr))
    show (if (s.take b).isEmpty then some c
      else clear_table_loop b n (processPage (s, c) (s.take b)).1
        (processPage (s, c) (s.take b)).2) = Option.none
    rw [hpage, hpp]
    show clear_table_loop b n s c = Option.none
    exact ih c

theorem clear_loop_terminates (b : Nat) (hb : 0 < b) :
    ∀ fuel (s : List (Option Int)) (c : Nat),
      (∀ r ∈ s, r.isSome = true) → s.Nodup → s.length < fuel →
      clear_table_loop b fuel s c = some (c + s.length) := by
  intro fuel
  induction fuel with
  | zero => intro s c _ _ h; omega
  | succ n ih =>
    intro s c hsome hnd hlen
    rcases hs : s with _ | ⟨x, t⟩
    · rcases b with _ | b'
      · omega
      · rfl
    · rw [← hs]
      have hpage : (s.take b).isEmpty = false := by
        rw [hs]
        rcases b with _ | b'
        · omega
        · rfl
      have hpp : processPage (s, c) (s.take b) =
          (s.drop b, c + (s.take b).length) := by
        have h := processPage_prefix (s.take b) (s.drop b) c
          (fun r hr => hsome r (List.take_subset b s hr))
          (by rw [List.take_append_drop]; exact hnd)
        rw [List.take_append_drop] at h
        exact h
      show (if (s.take b).isEmpty then some c
        else clear_table_loop b n (processPage (s, c) (s.take b)).1
          (processPage (s, c) (s.take b)).2) = some (c + s.length)
      rw [hpage, hpp]
      have hdroplen : (s.drop b).length < n := by
        rw [List.length_drop]
        rw [hs] at hlen ⊢
        simp only [List.length_cons] at hlen ⊢
        omega
      rw [ih (s.drop b) (c + (s.take b).length)
        (fun r hr => hsome r (List.drop_subset b s hr))
        ((List.drop_sublist b s).nodup hnd) hdroplen]
      have : c + (s.take b).length + (s.drop b).length = c + s.length := by
        rw [List.length_take, List.length_drop]
        omega
      rw [this]
      simp

/-- C10: `clear_table` re-fetches a page from offset 0 on every iteration
and skips null-id rows without deleting them.  When every row of the table
has a distinct non-null id (so each delete removes the row from subsequent
fetches), the loop terminates and returns exactly the number of delete
requests it issued — one per row.  When the table is a non-empty list of
rows that all have null ids, every fetched page consists solely of null-id
rows and the loop never terminates (it exhausts any amount of fuel). -/
theorem clear_table_termination (b : Nat) (hb : 0 < b) (s : List (Option Int)) :
    ((∀ r ∈ s, r.isSome = true) → s.Nodup →
      clear_table_loop b (s.length + 1) s 0 = some s.length)
    ∧ ((∀ r ∈ s, r = Option.none) → s ≠ [] →
      ∀ fuel, clear_table_loop b fuel s 0 = Option.none) := by
  constructor
  · intro h1 h2
    have h := clear_loop_terminates b hb (s.length + 1) s 0 h1 h2 (by omega)
    rw [h]
    rw [Nat.zero_add]
  · intro h1 h2 fuel
    exact clear_loop_diverges b hb s h1 h2 fuel 0

theorem clear_table_termination_witness :
    clear_table_loop 2 4 [some 1, some 2, some 3] 0 = some 3
    ∧ clear_table_loop 2 5 [Option.none, Option.none] 0 = Option.none :=
  ⟨(clear_table_termination 2 (by decide) [some 1, some 2, some 3]).1
      (by decide) (by decide),
   (clear_table_termination 2 (by decide) [Option.none, Option.none]).2
      (by decide) (by decide) 5⟩

end KitaNC
